import Mathlib

/-!
Shallow embedding of the bitmap image-filter program of this repository
(source file src/horn_main.cpp), together with proofs about its codec and
transform functions.

Modelling conventions:
* C++ `int` values are modelled as `Int` (the claims under study stay far
  from the 31-bit overflow boundary except where a theorem states a bound
  explicitly).
* C++ truncating division `/` and remainder `%` on `int` are `Int.tdiv`
  and `Int.tmod`; the arithmetic right shift `>>` is `>>>` on `Int`; the
  narrowing conversion `int -> unsigned char` is `Int.emod _ 256`.
* A file is a byte list `List Int` (entries in `[0,255]` for real files).
  The C++ `fstream` read interface is the `ByteStream` state machine:
  `get` past the end returns the EOF sentinel `-1` and puts the stream in
  a sticky failed state, exactly as `istream::get` sets `failbit`, and a
  later `seekg` on a failed stream is a no-op.
* Negative `width`/`height` header values would make the C++
  `vector(height, ...)` constructor throw; the model uses `Int.toNat`
  (clamping to 0) there, and the theorems concern non-negative headers.
-/

/-- Pixel structure of the source: three independent `int` color channels. -/
structure Pixel where
  red : Int
  green : Int
  blue : Int
  deriving DecidableEq

/-- In-memory image: `vector<vector<Pixel>>`, addressed as (row, column). -/
abbrev Image := List (List Pixel)

/-- Value-initialised pixel, as produced by `vector<Pixel>(n)`. -/
def zeroPixel : Pixel := ⟨0, 0, 0⟩

/-- Cell read `image[i][j]` (the program only reads in bounds). -/
def getCell (image : Image) (i j : Nat) : Pixel :=
  (image.getD i []).getD j zeroPixel

/-- Cell write `image[i][j] = p` (the program only writes in bounds). -/
def setCell (image : Image) (i j : Nat) (p : Pixel) : Image :=
  image.set i ((image.getD i []).set j p)

/-- Grid allocation `vector<vector<Pixel>>(r, vector<Pixel>(c))`. -/
def mkGrid (r c : Nat) : Image :=
  List.replicate r (List.replicate c zeroPixel)

/-- Number of rows, `image.size()`. -/
def nrows (image : Image) : Nat := image.length

/-- Number of columns, `image[0].size()`. -/
def ncols (image : Image) : Nat := (image.getD 0 []).length

/-- Rectangularity: every row has the column count of row 0. -/
def Rect (image : Image) : Prop :=
  ∀ i, i < nrows image → (image.getD i []).length = ncols image

instance decRect (image : Image) : Decidable (Rect image) :=
  inferInstanceAs (Decidable (∀ i, i < nrows image → (image.getD i []).length = ncols image))

/-- State of a C++ `fstream` opened for reading over the byte list `data`:
a read position and the sticky fail flag (`failbit`). -/
structure ByteStream where
  data : List Int
  pos : Nat
  failed : Bool
  deriving DecidableEq

/-- Transcription of `stream.get()`: in bounds it yields the byte and
advances; past the end it yields the EOF sentinel `-1` and sets the fail
flag; on a failed stream it yields `-1` and changes nothing. -/
def ByteStream.get (s : ByteStream) : Int × ByteStream :=
  if s.failed then (-1, s)
  else if s.pos < s.data.length then
    (s.data.getD s.pos (-1), { s with pos := s.pos + 1 })
  else (-1, { s with failed := true })

/-- Transcription of `stream.seekg(off)` (absolute seek): a no-op on a
failed stream, fails on a negative offset, otherwise moves the position
(seeking past the end is allowed, as for a `filebuf`). -/
def ByteStream.seekg (s : ByteStream) (off : Int) : ByteStream :=
  if s.failed then s
  else if off < 0 then { s with failed := true }
  else { s with pos := off.toNat }

/-- Transcription of `stream.seekg(off, ios::cur)` (relative seek). -/
def ByteStream.seekCur (s : ByteStream) (off : Int) : ByteStream :=
  if s.failed then s
  else if (s.pos : Int) + off < 0 then { s with failed := true }
  else { s with pos := ((s.pos : Int) + off).toNat }

/-- Accumulator loop of `get_int`: `result = result + stream.get() * base;
base = base * 256;` repeated `bytes` times. -/
def get_int_loop : Nat → Int → Int → ByteStream → Int × ByteStream
  | 0, result, _, st => (result, st)
  | n + 1, result, base, st =>
    get_int_loop n (result + (st.get).1 * base) (base * 256) (st.get).2

/-- Transcription of `get_int(stream, offset, bytes)` from the source:
seek to `offset`, then accumulate `bytes` little-endian bytes. -/
def get_int (stream : ByteStream) (offset : Int) (bytes : Nat) : Int × ByteStream :=
  get_int_loop bytes 0 1 (stream.seekg offset)

/-- Transcription of `set_bytes(arr, offset, bytes, value)`: the `bytes`
bytes stored at `offset`, byte `i` being `(unsigned char)(value>>(i*8))`;
the arithmetic right shift by `8*i` is floor division by `2^(8*i)`.
The header-building calls below tile their arrays contiguously, so each
header is the concatenation of these chunks. -/
def set_bytes (bytes : Nat) (value : Int) : List Int :=
  (List.range bytes).map (fun i : Nat => Int.emod (Int.fdiv value (2 ^ (8 * i))) 256)

/-- BMP file header built by `write_image` (66 and 77 are the character
codes of the two magic letters). -/
def bmp_header (array_bytes : Nat) : List Int :=
  set_bytes 1 66 ++ set_bytes 1 77 ++
  set_bytes 4 (14 + 40 + (array_bytes : Int)) ++
  set_bytes 2 0 ++ set_bytes 2 0 ++ set_bytes 4 (14 + 40)

/-- DIB header built by `write_image`. -/
def dib_header (width_pixels height_pixels array_bytes : Nat) : List Int :=
  set_bytes 4 40 ++ set_bytes 4 (width_pixels : Int) ++
  set_bytes 4 (height_pixels : Int) ++ set_bytes 2 1 ++ set_bytes 2 24 ++
  set_bytes 4 0 ++ set_bytes 4 (array_bytes : Int) ++ set_bytes 4 2835 ++
  set_bytes 4 2835 ++ set_bytes 4 0 ++ set_bytes 4 0

/-- Bytes emitted for one pixel: blue, green, red, each narrowed to
`unsigned char`. -/
def enc_pixel (p : Pixel) : List Int :=
  [Int.emod p.blue 256, Int.emod p.green 256, Int.emod p.red 256]

/-- Bytes emitted for one pixel row followed by its zero padding. -/
def enc_row (padding_bytes : Nat) (row : List Pixel) : List Int :=
  row.flatMap enc_pixel ++ List.replicate padding_bytes 0

/-- Pixel array emitted by `write_image`: rows from the last logical row
to the first (`for h = height-1 downto 0`). -/
def pixel_array (image : Image) (padding_bytes : Nat) : List Int :=
  image.reverse.flatMap (enc_row padding_bytes)

/-- Row stride of `write_image`: `width*3` plus the padding that rounds
it up to a multiple of 4. -/
def strideOf (width_pixels : Nat) : Nat :=
  width_pixels * 3 + (4 - (width_pixels * 3) % 4) % 4

/-- Transcription of `write_image` on the successful-open path: the byte
stream written to the output file. -/
def write_image (image : Image) : List Int :=
  let width_pixels := ncols image
  let height_pixels := nrows image
  let padding_bytes := (4 - (width_pixels * 3) % 4) % 4
  let width_bytes := width_pixels * 3 + padding_bytes
  let array_bytes := width_bytes * height_pixels
  bmp_header array_bytes ++ dib_header width_pixels height_pixels array_bytes ++
    pixel_array image padding_bytes

/-- Header fields extracted by `read_image` with `get_int`, in source
order; the five reads share one stream, so a failure in an early read is
sticky for the later ones. `after` is the stream state after the reads. -/
structure Header where
  file_size : Int
  start : Int
  width : Int
  height : Int
  bits_per_pixel : Int
  after : ByteStream

/-- The five `get_int` calls opening `read_image`. -/
def read_header (data : List Int) : Header :=
  let s0 : ByteStream := ⟨data, 0, false⟩
  let r1 := get_int s0 2 4
  let r2 := get_int r1.2 10 4
  let r3 := get_int r2.2 18 4
  let r4 := get_int r3.2 22 4
  let r5 := get_int r4.2 28 2
  ⟨r1.1, r2.1, r3.1, r4.1, r5.1, r5.2⟩

/-- Padding computation of `read_image`:
`if (scanline_size % 4 != 0) padding = 4 - scanline_size % 4;`. -/
def padOf (scanline_size : Int) : Int :=
  if Int.tmod scanline_size 4 ≠ 0 then 4 - Int.tmod scanline_size 4 else 0

/-- Inner column loop of `read_image`: for each of the `w` pixels, seek to
`pos`, read blue, green, red, and advance `pos` by `pix_bytes`.  Returns
the pixels in column order together with the final stream and `pos`. -/
def readRow : Nat → ByteStream → Int → Int → List Pixel × ByteStream × Int
  | 0, s, pos, _ => ([], s, pos)
  | w + 1, s, pos, pix_bytes =>
    let s1 := s.seekg pos
    let b := s1.get
    let g := b.2.get
    let r := g.2.get
    let rest := readRow w r.2 (pos + pix_bytes) pix_bytes
    ({ red := r.1, green := g.1, blue := b.1 } :: rest.1, rest.2.1, rest.2.2)

/-- Outer row loop of `read_image`, which walks destination rows from
`height-1` down to `0`: the blocks are produced in file order, so the
destination image is their reversal.  After each row the padding is
skipped (`seekg(padding, ios::cur)`) and `pos` advances past it. -/
def readRows : Nat → ByteStream → Int → Int → Int → Nat → List (List Pixel) × ByteStream × Int
  | 0, s, pos, _, _, _ => ([], s, pos)
  | n + 1, s, pos, pix_bytes, padding, width =>
    let row := readRow width s pos pix_bytes
    let s2 := row.2.1.seekCur padding
    let rest := readRows n s2 (row.2.2 + padding) pix_bytes padding width
    (row.1 :: rest.1, rest.2.1, rest.2.2)

/-- Transcription of `read_image`: header reads, the scanline/padding
arithmetic, the validity check (empty result on failure), then the pixel
loop; the blocks are read bottom row first, so the image is the reversed
block list. -/
def read_image (data : List Int) : Image :=
  let hd := read_header data
  let pix_bytes := Int.tdiv hd.bits_per_pixel 8
  let scanline_size := hd.width * pix_bytes
  let padding := padOf scanline_size
  if hd.file_size ≠ hd.start + (scanline_size + padding) * hd.height then []
  else ((readRows hd.height.toNat hd.after hd.start pix_bytes padding hd.width.toNat).1).reverse

/-- Transcription of `size_image`: (rows, cols). -/
def size_image (image : Image) : Nat × Nat := (image.length, (image.getD 0 []).length)

/-- Transcription of `rbg_pixel`: the tuple (red, blue, green). -/
def rbg_pixel (p : Pixel) : Int × Int × Int := (p.red, p.blue, p.green)

/-- Transcription of `new_pixel(r, b, g)`. -/
def new_pixel (r b g : Int) : Pixel := { red := r, green := g, blue := b }

/-- Functional form of the allocate-and-fill loop shared by the per-pixel
transforms: a fresh `rows × cols` grid whose cell (row, col) receives the
loop body value `f row col`. -/
def buildGrid (rows cols : Nat) (f : Nat → Nat → Pixel) : Image :=
  (List.range rows).map (fun row => (List.range cols).map (fun col => f row col))

/-- Transcription of `process_3` (grayscale): every destination cell gets
`new_pixel(avg, avg, avg)` with `avg = (red + blue + green) / 3` in C++
integer division. -/
def process_3 (image : Image) : Image :=
  buildGrid (size_image image).1 (size_image image).2 (fun row col =>
    let c := rbg_pixel (getCell image row col)
    let avg := Int.tdiv (c.1 + c.2.1 + c.2.2) 3
    new_pixel avg avg avg)

/-- Transcription of `process_10` (color threshold), including the branch
order `sum >= 550`, `sum <= 150`, `mx == red`, `mx == green`, else, and
the `new_pixel(n_red, n_blue, n_green)` argument order of the source. -/
def process_10 (image : Image) : Image :=
  buildGrid (size_image image).1 (size_image image).2 (fun row col =>
    let c := rbg_pixel (getCell image row col)
    let red := c.1
    let blue := c.2.1
    let green := c.2.2
    let mx := max (max red blue) green
    let sum := red + blue + green
    if 550 ≤ sum then new_pixel 255 255 255
    else if sum ≤ 150 then new_pixel 0 0 0
    else if mx = red then new_pixel 255 0 0
    else if mx = green then new_pixel 0 0 255
    else new_pixel 0 255 0)

/-- Folding a list of writes `dest := value` over a grid, the functional
form of a C++ loop of in-place cell assignments. -/
def writeAll (g : Image) (ws : List ((Nat × Nat) × Pixel)) : Image :=
  ws.foldl (fun acc w => setCell acc w.1.1 w.1.2 w.2) g

/-- Writes performed by one doubly nested rotation loop
(`for row < rows, for col < cols: buffer[dest row col] = val row col`),
in iteration order. -/
def passWrites (rows cols : Nat) (dest : Nat → Nat → Nat × Nat)
    (val : Nat → Nat → Pixel) : List ((Nat × Nat) × Pixel) :=
  (List.range rows).flatMap (fun row =>
    (List.range cols).map (fun col => (dest row col, val row col)))

/-- Transcription of `rotate_90(image, rotations)`: reduce modulo 4 and
return the input for a multiple of 4; otherwise perform the first pass
into `new_image` (a `cols × rows` grid), then for `i = 2 .. rotations`
alternate the mirror pass (even `i`, into `new_image_mirror`, a
`rows × cols` grid) and the forward pass (odd `i`, back into
`new_image`), finally returning the buffer matching the parity. -/
def rotate_90 (image : Image) (rotations : Nat) : Image :=
  let r := rotations % 4
  if r = 0 then image
  else
    let rows := (size_image image).1
    let cols := (size_image image).2
    let first := writeAll (mkGrid cols rows)
      (passWrites rows cols (fun row col => ((cols - 1) - col, row))
        (fun row col => getCell image row col))
    let fin := (List.range' 2 (r - 1)).foldl
      (fun p i =>
        if i % 2 = 0 then
          (p.1, writeAll p.2 (passWrites rows cols
            (fun row col => ((rows - 1) - row, col))
            (fun row col => getCell p.1 col row)))
        else
          (writeAll p.1 (passWrites rows cols
            (fun row col => ((cols - 1) - col, row))
            (fun row col => getCell p.2 row col)), p.2))
      (first, mkGrid rows cols)
    if r % 2 = 0 then fin.2 else fin.1

/-- Transcription of `process_4`: a single 90 degree rotation. -/
def process_4 (image : Image) : Image := rotate_90 image 1

/-! ## Specification-side definitions used by the theorems -/

/-- Little-endian value of `n` bytes of `d` starting at position `p`,
where a position past the end contributes the EOF sentinel `-1`. -/
def bytesVal (d : List Int) : Nat → Nat → Int
  | _, 0 => 0
  | p, n + 1 => d.getD p (-1) + 256 * bytesVal d (p + 1) n

/-- Value accumulated by `get_int_loop` on an already failed stream:
every byte read contributes `-1`. -/
def negSum : Nat → Int
  | 0 => 0
  | n + 1 => -1 + 256 * negSum n

/-- Channel values within the byte range [0, 255]. -/
def chOK (p : Pixel) : Prop :=
  0 ≤ p.red ∧ p.red ≤ 255 ∧ 0 ≤ p.green ∧ p.green ≤ 255 ∧ 0 ≤ p.blue ∧ p.blue ≤ 255

instance decChOK (p : Pixel) : Decidable (chOK p) :=
  inferInstanceAs (Decidable (0 ≤ p.red ∧ p.red ≤ 255 ∧ 0 ≤ p.green ∧ p.green ≤ 255 ∧
    0 ≤ p.blue ∧ p.blue ≤ 255))

/-- The 54 header bytes written by `write_image`. -/
def headerAll (width_pixels height_pixels array_bytes : Nat) : List Int :=
  bmp_header array_bytes ++ dib_header width_pixels height_pixels array_bytes

/-! ## List access helpers -/

theorem getD_eq_get {α : Type} (l : List α) (n : Nat) (d : α) (h : n < l.length) :
    l.getD n d = l.get ⟨n, h⟩ := by
  simp [List.getD_eq_getElem?_getD, List.getElem?_eq_getElem h]

theorem getD_out {α : Type} (l : List α) (n : Nat) (d : α) (h : l.length ≤ n) :
    l.getD n d = d := by
  simp [List.getD_eq_getElem?_getD, List.getElem?_eq_none h]

theorem getD_set_self {α : Type} (l : List α) (i : Nat) (x d : α) (hi : i < l.length) :
    (l.set i x).getD i d = x := by
  rw [List.getD_eq_getElem?_getD, List.getElem?_set_self hi]
  rfl

theorem getD_set_ne {α : Type} (l : List α) (i a : Nat) (x d : α) (h : i ≠ a) :
    (l.set i x).getD a d = l.getD a d := by
  rw [List.getD_eq_getElem?_getD, List.getElem?_set_ne h, ← List.getD_eq_getElem?_getD]

/-! ## Cell write lemmas -/

theorem length_setCell (g : Image) (i j : Nat) (p : Pixel) :
    (setCell g i j p).length = g.length := by
  simp [setCell]

theorem rowlen_setCell (g : Image) (i j : Nat) (p : Pixel) (a : Nat) :
    ((setCell g i j p).getD a []).length = (g.getD a []).length := by
  unfold setCell
  rcases eq_or_ne i a with rfl | hne
  · by_cases hi : i < g.length
    · rw [getD_set_self _ _ _ _ hi, List.length_set]
    · rw [List.set_eq_of_length_le (le_of_not_lt hi)]
  · rw [getD_set_ne _ _ _ _ _ hne]

theorem getCell_setCell_self (g : Image) (i j : Nat) (p : Pixel)
    (hi : i < g.length) (hj : j < (g.getD i []).length) :
    getCell (setCell g i j p) i j = p := by
  unfold getCell setCell
  rw [getD_set_self _ _ _ _ hi, getD_set_self _ _ _ _ hj]

theorem getCell_setCell_ne (g : Image) (a b i j : Nat) (p : Pixel)
    (h : ¬(a = i ∧ b = j)) :
    getCell (setCell g a b p) i j = getCell g i j := by
  unfold getCell setCell
  rcases eq_or_ne a i with rfl | hne
  · have hbj : b ≠ j := fun hb => h ⟨rfl, hb⟩
    by_cases ha : a < g.length
    · rw [getD_set_self _ _ _ _ ha, getD_set_ne _ _ _ _ _ hbj]
    · rw [List.set_eq_of_length_le (le_of_not_lt ha)]
  · rw [getD_set_ne _ _ _ _ _ hne]

/-! ## writeAll lemmas -/

theorem writeAll_cons (g : Image) (w : (Nat × Nat) × Pixel) (ws : List ((Nat × Nat) × Pixel)) :
    writeAll g (w :: ws) = writeAll (setCell g w.1.1 w.1.2 w.2) ws := rfl

theorem length_writeAll (ws : List ((Nat × Nat) × Pixel)) (g : Image) :
    (writeAll g ws).length = g.length := by
  induction ws generalizing g with
  | nil => rfl
  | cons w ws ih => rw [writeAll_cons, ih, length_setCell]

theorem rowlen_writeAll (ws : List ((Nat × Nat) × Pixel)) (g : Image) (a : Nat) :
    ((writeAll g ws).getD a []).length = (g.getD a []).length := by
  induction ws generalizing g with
  | nil => rfl
  | cons w ws ih => rw [writeAll_cons, ih, rowlen_setCell]

theorem getCell_writeAll_not_mem (ws : List ((Nat × Nat) × Pixel)) (g : Image) (i j : Nat)
    (h : ∀ w ∈ ws, w.1 ≠ (i, j)) :
    getCell (writeAll g ws) i j = getCell g i j := by
  induction ws generalizing g with
  | nil => rfl
  | cons w ws ih =>
    rw [writeAll_cons, ih _ (fun u hu => h u (List.mem_cons_of_mem _ hu)),
      getCell_setCell_ne]
    intro hc
    exact h w (List.mem_cons_self _ _) (by rw [← hc.1, ← hc.2])

theorem getCell_writeAll_mem (ws : List ((Nat × Nat) × Pixel)) (g : Image) (i j : Nat) (v : Pixel)
    (hval : ∀ w ∈ ws, w.1 = (i, j) → w.2 = v)
    (hmem : ∃ w ∈ ws, w.1 = (i, j))
    (hi : i < g.length) (hj : j < (g.getD i []).length) :
    getCell (writeAll g ws) i j = v := by
  induction ws generalizing g with
  | nil => exact absurd hmem (by simp)
  | cons w ws ih =>
    rw [writeAll_cons]
    by_cases hex : ∃ u ∈ ws, u.1 = (i, j)
    · exact ih _ (fun u hu => hval u (List.mem_cons_of_mem _ hu)) hex
        (by rw [length_setCell]; exact hi)
        (by rw [rowlen_setCell]; exact hj)
    · push_neg at hex
      have hw : w.1 = (i, j) := by
        rcases hmem with ⟨u, hu, hu1⟩
        rcases List.mem_cons.mp hu with rfl | hmem2
        · exact hu1
        · exact absurd hu1 (hex u hmem2)
      rw [getCell_writeAll_not_mem _ _ _ _ hex]
      have : w.2 = v := hval w (List.mem_cons_self _ _) hw
      rw [← this]
      have h1 : w.1.1 = i := by rw [hw]
      have h2 : w.1.2 = j := by rw [hw]
      rw [h1, h2]
      exact getCell_setCell_self _ _ _ _ hi hj

/-! ## Rotation pass characterization -/

theorem mem_passWrites (rows cols : Nat) (dest : Nat → Nat → Nat × Nat)
    (val : Nat → Nat → Pixel) (w : (Nat × Nat) × Pixel) :
    w ∈ passWrites rows cols dest val ↔
      ∃ row, row < rows ∧ ∃ col, col < cols ∧ w = (dest row col, val row col) := by
  simp only [passWrites, List.mem_flatMap, List.mem_map, List.mem_range]
  constructor
  · rintro ⟨r, hr, c, hc, h⟩
    exact ⟨r, hr, c, hc, h.symm⟩
  · rintro ⟨r, hr, c, hc, h⟩
    exact ⟨r, hr, c, hc, h.symm⟩

/-- Cell contents after the forward pass
`for row < rows, col < cols: buf[(cols-1)-col][row] = src[row][col]`:
position (a, b) of the `cols × rows` buffer receives `src[b][cols-1-a]`. -/
theorem getCell_fwdPass (src buf : Image) (rows cols : Nat)
    (hbl : buf.length = cols) (hbw : ∀ a, a < cols → (buf.getD a []).length = rows)
    (a b : Nat) (ha : a < cols) (hb : b < rows) :
    getCell (writeAll buf (passWrites rows cols (fun row col => ((cols - 1) - col, row))
      (fun row col => getCell src row col))) a b = getCell src b (cols - 1 - a) := by
  apply getCell_writeAll_mem
  · intro w hw hw1
    rcases (mem_passWrites _ _ _ _ _).mp hw with ⟨r, hr, c, hc, rfl⟩
    have h1 : (cols - 1) - c = a := by
      have := congrArg Prod.fst hw1
      simpa using this
    have h2 : r = b := by
      have := congrArg Prod.snd hw1
      simpa using this
    have hc2 : c = cols - 1 - a := by omega
    simp [h2, hc2]
  · refine ⟨(((cols - 1) - (cols - 1 - a), b), getCell src b (cols - 1 - a)), ?_, ?_⟩
    · rw [mem_passWrites]
      exact ⟨b, hb, cols - 1 - a, by omega, rfl⟩
    · have : (cols - 1) - (cols - 1 - a) = a := by omega
      rw [this]
  · rw [hbl]; exact ha
  · rw [hbw a ha]; exact hb

/-- Cell contents after the mirror pass
`for row < rows, col < cols: buf[(rows-1)-row][col] = src[col][row]`:
position (a, b) of the `rows × cols` buffer receives `src[b][rows-1-a]`. -/
theorem getCell_mirrorPass (src buf : Image) (rows cols : Nat)
    (hbl : buf.length = rows) (hbw : ∀ a, a < rows → (buf.getD a []).length = cols)
    (a b : Nat) (ha : a < rows) (hb : b < cols) :
    getCell (writeAll buf (passWrites rows cols (fun row col => ((rows - 1) - row, col))
      (fun row col => getCell src col row))) a b = getCell src b (rows - 1 - a) := by
  apply getCell_writeAll_mem
  · intro w hw hw1
    rcases (mem_passWrites _ _ _ _ _).mp hw with ⟨r, hr, c, hc, rfl⟩
    have h1 : (rows - 1) - r = a := by
      have := congrArg Prod.fst hw1
      simpa using this
    have h2 : c = b := by
      have := congrArg Prod.snd hw1
      simpa using this
    have hr2 : r = rows - 1 - a := by omega
    simp [h2, hr2]
  · refine ⟨(((rows - 1) - (rows - 1 - a), b), getCell src b (rows - 1 - a)), ?_, ?_⟩
    · rw [mem_passWrites]
      exact ⟨rows - 1 - a, by omega, b, hb, rfl⟩
    · have : (rows - 1) - (rows - 1 - a) = a := by omega
      rw [this]
  · rw [hbl]; exact ha
  · rw [hbw a ha]; exact hb

/-! ## Grid and rotation characterization -/

theorem mkGrid_len (r c : Nat) : (mkGrid r c).length = r := by
  simp [mkGrid]

theorem mkGrid_rowlen (r c : Nat) (a : Nat) (ha : a < r) :
    ((mkGrid r c).getD a []).length = c := by
  simp [mkGrid, List.getD_eq_getElem?_getD, List.getElem?_replicate, ha]

theorem rotate_90_one_eq (image : Image) :
    rotate_90 image 1 = writeAll (mkGrid (ncols image) (nrows image))
      (passWrites (nrows image) (ncols image)
        (fun row col => ((ncols image - 1) - col, row))
        (fun row col => getCell image row col)) := by
  simp [rotate_90, size_image, nrows, ncols, List.range']

theorem rotate_90_two_eq (image : Image) :
    rotate_90 image 2 = writeAll (mkGrid (nrows image) (ncols image))
      (passWrites (nrows image) (ncols image)
        (fun row col => ((nrows image - 1) - row, col))
        (fun row col => getCell (rotate_90 image 1) col row)) := by
  rw [rotate_90_one_eq]
  simp [rotate_90, size_image, nrows, ncols, List.range']

theorem rotate_90_three_eq (image : Image) :
    rotate_90 image 3 = writeAll (rotate_90 image 1)
      (passWrites (nrows image) (ncols image)
        (fun row col => ((ncols image - 1) - col, row))
        (fun row col => getCell (rotate_90 image 2) row col)) := by
  rw [rotate_90_two_eq, rotate_90_one_eq]
  simp [rotate_90, size_image, nrows, ncols, List.range']

theorem rot1_len (image : Image) : (rotate_90 image 1).length = ncols image := by
  rw [rotate_90_one_eq, length_writeAll, mkGrid_len]

theorem rot1_rowlen (image : Image) (a : Nat) (ha : a < ncols image) :
    ((rotate_90 image 1).getD a []).length = nrows image := by
  rw [rotate_90_one_eq, rowlen_writeAll, mkGrid_rowlen _ _ _ ha]

theorem rot1_cells (image : Image) (a b : Nat) (ha : a < ncols image) (hb : b < nrows image) :
    getCell (rotate_90 image 1) a b = getCell image b (ncols image - 1 - a) := by
  rw [rotate_90_one_eq]
  exact getCell_fwdPass image _ _ _ (mkGrid_len _ _) (fun x hx => mkGrid_rowlen _ _ _ hx) a b ha hb

theorem rot2_len (image : Image) : (rotate_90 image 2).length = nrows image := by
  rw [rotate_90_two_eq, length_writeAll, mkGrid_len]

theorem rot2_rowlen (image : Image) (a : Nat) (ha : a < nrows image) :
    ((rotate_90 image 2).getD a []).length = ncols image := by
  rw [rotate_90_two_eq, rowlen_writeAll, mkGrid_rowlen _ _ _ ha]

theorem rot2_cells (image : Image) (a b : Nat) (ha : a < nrows image) (hb : b < ncols image) :
    getCell (rotate_90 image 2) a b
      = getCell image (nrows image - 1 - a) (ncols image - 1 - b) := by
  rw [rotate_90_two_eq,
    getCell_mirrorPass (rotate_90 image 1) _ _ _ (mkGrid_len _ _)
      (fun x hx => mkGrid_rowlen _ _ _ hx) a b ha hb,
    rot1_cells image b (nrows image - 1 - a) hb (by omega)]

theorem rot3_len (image : Image) : (rotate_90 image 3).length = ncols image := by
  rw [rotate_90_three_eq, length_writeAll, rot1_len]

theorem rot3_rowlen (image : Image) (a : Nat) (ha : a < ncols image) :
    ((rotate_90 image 3).getD a []).length = nrows image := by
  rw [rotate_90_three_eq, rowlen_writeAll, rot1_rowlen _ _ ha]

theorem rot3_cells (image : Image) (a b : Nat) (ha : a < ncols image) (hb : b < nrows image) :
    getCell (rotate_90 image 3) a b = getCell image (nrows image - 1 - b) a := by
  rw [rotate_90_three_eq,
    getCell_fwdPass (rotate_90 image 2) (rotate_90 image 1) (nrows image) (ncols image)
      (rot1_len image) (fun x hx => rot1_rowlen image x hx) a b ha hb,
    rot2_cells image b (ncols image - 1 - a) hb (by omega)]
  congr 1
  omega

/-! ## Image extensionality and composition of rotations -/

theorem imageExt (X Y : Image) (hl : X.length = Y.length)
    (hrl : ∀ i, i < X.length → (X.getD i []).length = (Y.getD i []).length)
    (hc : ∀ i, i < X.length → ∀ j, j < (X.getD i []).length → getCell X i j = getCell Y i j) :
    X = Y := by
  apply List.ext_getElem hl
  intro n h1 h2
  have hX : X.getD n [] = X[n] := by
    rw [getD_eq_get _ _ _ h1]
    simp [List.get_eq_getElem]
  have hY : Y.getD n [] = Y[n] := by
    rw [getD_eq_get _ _ _ h2]
    simp [List.get_eq_getElem]
  apply List.ext_getElem
  · have := hrl n h1
    rw [hX, hY] at this
    exact this
  · intro m hm1 hm2
    have hc2 := hc n h1 m (by rw [hX]; exact hm1)
    unfold getCell at hc2
    rw [hX, hY, getD_eq_get _ _ _ hm1, getD_eq_get _ _ _ hm2] at hc2
    simpa [List.get_eq_getElem] using hc2

theorem p4_def (image : Image) : process_4 image = rotate_90 image 1 := rfl

theorem rot2_eq_double (image : Image) (hh : 0 < nrows image) (hw : 0 < ncols image) :
    rotate_90 image 2 = rotate_90 (rotate_90 image 1) 1 := by
  have hc1 : ncols (rotate_90 image 1) = nrows image := rot1_rowlen image 0 hw
  have hr1 : nrows (rotate_90 image 1) = ncols image := rot1_len image
  apply imageExt
  · rw [rot2_len, rot1_len _, hc1]
  · intro i hi
    rw [rot2_len] at hi
    rw [rot2_rowlen image i hi, rot1_rowlen _ i (by rw [hc1]; exact hi), hr1]
  · intro i hi j hj
    rw [rot2_len] at hi
    rw [rot2_rowlen image i hi] at hj
    rw [rot2_cells image i j hi hj,
      rot1_cells _ i j (by rw [hc1]; exact hi) (by rw [hr1]; exact hj), hc1,
      rot1_cells image j (nrows image - 1 - i) hj (by omega)]

theorem rot3_eq_triple (image : Image) (hh : 0 < nrows image) (hw : 0 < ncols image) :
    rotate_90 image 3 = rotate_90 (rotate_90 (rotate_90 image 1) 1) 1 := by
  have hc1 : ncols (rotate_90 image 1) = nrows image := rot1_rowlen image 0 hw
  have hr1 : nrows (rotate_90 image 1) = ncols image := rot1_len image
  have h2 : rotate_90 (rotate_90 image 1) 1 = rotate_90 image 2 :=
    (rot2_eq_double image hh hw).symm
  have hc2 : ncols (rotate_90 image 2) = ncols image := rot2_rowlen image 0 hh
  have hr2 : nrows (rotate_90 image 2) = nrows image := rot2_len image
  rw [h2]
  apply imageExt
  · rw [rot3_len, rot1_len _, hc2]
  · intro i hi
    rw [rot3_len] at hi
    rw [rot3_rowlen image i hi, rot1_rowlen _ i (by rw [hc2]; exact hi), hr2]
  · intro i hi j hj
    rw [rot3_len] at hi
    rw [rot3_rowlen image i hi] at hj
    rw [rot3_cells image i j hi hj,
      rot1_cells _ i j (by rw [hc2]; exact hi) (by rw [hr2]; exact hj), hc2,
      rot2_cells image j (ncols image - 1 - i) hj (by omega)]
    congr 1
    omega

theorem rot1_nrows (image : Image) : nrows (rotate_90 image 1) = ncols image :=
  rot1_len image

theorem rot1_ncols (image : Image) (hw : 0 < ncols image) :
    ncols (rotate_90 image 1) = nrows image :=
  rot1_rowlen image 0 hw

theorem rot2_nrows (image : Image) : nrows (rotate_90 image 2) = nrows image :=
  rot2_len image

theorem rot2_ncols (image : Image) (hh : 0 < nrows image) :
    ncols (rotate_90 image 2) = ncols image :=
  rot2_rowlen image 0 hh

theorem rot4_core (image : Image) (hre : Rect image) (hh : 0 < nrows image)
    (hw : 0 < ncols image) :
    process_4 (process_4 (process_4 (process_4 image))) = image := by
  rw [p4_def, p4_def, p4_def, p4_def, ← rot2_eq_double image hh hw,
    ← rot2_eq_double (rotate_90 image 2) (by rw [rot2_nrows]; exact hh)
      (by rw [rot2_ncols image hh]; exact hw)]
  have hr2 : nrows (rotate_90 image 2) = nrows image := rot2_nrows image
  have hc2 : ncols (rotate_90 image 2) = ncols image := rot2_ncols image hh
  apply imageExt
  · show nrows _ = nrows image
    rw [rot2_nrows, hr2]
  · intro i hi
    have hi2 : i < nrows image := by
      have h0 : i < nrows (rotate_90 (rotate_90 image 2) 2) := hi
      rw [rot2_nrows, hr2] at h0
      exact h0
    rw [rot2_rowlen _ i (by rw [hr2]; exact hi2), hc2]
    exact (hre i hi2).symm
  · intro i hi j hj
    have hi2 : i < nrows image := by
      have h0 : i < nrows (rotate_90 (rotate_90 image 2) 2) := hi
      rw [rot2_nrows, hr2] at h0
      exact h0
    have hj2 : j < ncols image := by
      rw [rot2_rowlen _ i (by rw [hr2]; exact hi2), hc2] at hj
      exact hj
    rw [rot2_cells _ i j (by rw [hr2]; exact hi2) (by rw [hc2]; exact hj2), hr2, hc2]
    rw [rot2_cells image (nrows image - 1 - i) (ncols image - 1 - j)
      (by omega) (by omega)]
    have e1 : nrows image - 1 - (nrows image - 1 - i) = i := by omega
    have e2 : ncols image - 1 - (ncols image - 1 - j) = j := by omega
    rw [e1, e2]

theorem rotate_90_mod (image : Image) (N : Nat) :
    rotate_90 image N = rotate_90 image (N % 4) := by
  unfold rotate_90
  rw [Nat.mod_mod_of_dvd N dvd_rfl]

theorem rot4_iterate_mul (image : Image) (hre : Rect image) (hh : 0 < nrows image)
    (hw : 0 < ncols image) (q : Nat) : process_4^[4 * q] image = image := by
  induction q with
  | zero => rfl
  | succ q ih =>
    have e : 4 * (q + 1) = 4 * q + 4 := by ring
    rw [e, Function.iterate_add_apply]
    have h4 : process_4^[4] image = image := by
      have e2 : process_4^[4] image
          = process_4 (process_4 (process_4 (process_4 image))) := by
        simp [Function.iterate_succ_apply']
      rw [e2]
      exact rot4_core image hre hh hw
    rw [h4, ih]

/-- Claim C2 counterexample: on the 1-row, 2-column image with pixels
a = (1,0,0), b = (2,0,0), the claimed clockwise rule sends source (0,0)
to destination (col, R-1-row) = (0,0), so the claim demands pixel a
there; the code places pixel b there instead. -/
theorem rotation_cw_claim_cex :
    getCell (process_4 [[⟨1, 0, 0⟩, ⟨2, 0, 0⟩]]) 0 0
      ≠ getCell [[⟨1, 0, 0⟩, ⟨2, 0, 0⟩]] 0 0 := by
  decide

/-- Claim C2 (amended): a single application of transform 4 on a
non-empty rectangular R×C image produces a C×R image in which the source
pixel at (row, col) appears at destination (C-1-col, row): the rotation
is counter-clockwise, not clockwise as claimed. -/
theorem rotation_single_pass_ccw (image : Image) (hre : Rect image)
    (hh : 0 < nrows image) (hw : 0 < ncols image) :
    nrows (process_4 image) = ncols image ∧
      ncols (process_4 image) = nrows image ∧
      ∀ row, row < nrows image → ∀ col, col < ncols image →
        getCell (process_4 image) (ncols image - 1 - col) row = getCell image row col := by
  refine ⟨rot1_nrows image, rot1_ncols image hw, ?_⟩
  intro row hrow col hcol
  rw [p4_def, rot1_cells image (ncols image - 1 - col) row (by omega) hrow]
  congr 1
  omega

/-- Witness for `rotation_single_pass_ccw` at a concrete 1×2 image. -/
theorem rotation_single_pass_ccw_witness :
    Rect [[⟨1, 2, 3⟩, ⟨4, 5, 6⟩]] ∧ 0 < nrows [[⟨1, 2, 3⟩, ⟨4, 5, 6⟩]] ∧
      0 < ncols [[⟨1, 2, 3⟩, ⟨4, 5, 6⟩]] ∧
      (nrows (process_4 [[⟨1, 2, 3⟩, ⟨4, 5, 6⟩]]) = ncols [[⟨1, 2, 3⟩, ⟨4, 5, 6⟩]] ∧
        ncols (process_4 [[⟨1, 2, 3⟩, ⟨4, 5, 6⟩]]) = nrows [[⟨1, 2, 3⟩, ⟨4, 5, 6⟩]] ∧
        ∀ row, row < nrows [[⟨1, 2, 3⟩, ⟨4, 5, 6⟩]] →
          ∀ col, col < ncols [[⟨1, 2, 3⟩, ⟨4, 5, 6⟩]] →
            getCell (process_4 [[⟨1, 2, 3⟩, ⟨4, 5, 6⟩]])
                (ncols [[⟨1, 2, 3⟩, ⟨4, 5, 6⟩]] - 1 - col) row
              = getCell [[⟨1, 2, 3⟩, ⟨4, 5, 6⟩]] row col) :=
  ⟨by decide, by decide, by decide,
    rotation_single_pass_ccw _ (by decide) (by decide) (by decide)⟩

/-- Claim C6: on every non-empty rectangular image, four successive
applications of the single 90-degree rotation (transform 4) give back an
image identical to the original in dimensions and pixel values. -/
theorem rot90_four_times_identity (image : Image) (hre : Rect image)
    (hh : 0 < nrows image) (hw : 0 < ncols image) :
    process_4^[4] image = image := by
  have e2 : process_4^[4] image
      = process_4 (process_4 (process_4 (process_4 image))) := by
    simp [Function.iterate_succ_apply']
  rw [e2]
  exact rot4_core image hre hh hw

/-- Witness for `rot90_four_times_identity` at a concrete 2×1 image. -/
theorem rot90_four_times_identity_witness :
    Rect [[⟨9, 8, 7⟩], [⟨1, 2, 3⟩]] ∧ 0 < nrows [[⟨9, 8, 7⟩], [⟨1, 2, 3⟩]] ∧
      0 < ncols [[⟨9, 8, 7⟩], [⟨1, 2, 3⟩]] ∧
      process_4^[4] [[⟨9, 8, 7⟩], [⟨1, 2, 3⟩]] = [[⟨9, 8, 7⟩], [⟨1, 2, 3⟩]] :=
  ⟨by decide, by decide, by decide,
    rot90_four_times_identity _ (by decide) (by decide) (by decide)⟩

/-- Claim C5: on a non-empty rectangular image and positive N,
`rotate_90 image N` equals N successive applications of transform 4,
equivalently N mod 4 applications, and is the input unchanged when
N mod 4 = 0. -/
theorem rotateN_eq_iterated_rot90 (image : Image) (hre : Rect image)
    (hh : 0 < nrows image) (hw : 0 < ncols image) (N : Nat) (hN : 1 ≤ N) :
    rotate_90 image N = process_4^[N] image ∧
      rotate_90 image N = process_4^[N % 4] image ∧
      (N % 4 = 0 → rotate_90 image N = image) := by
  have hmod := rotate_90_mod image N
  have hcase : rotate_90 image (N % 4) = process_4^[N % 4] image := by
    have h4 : N % 4 = 0 ∨ N % 4 = 1 ∨ N % 4 = 2 ∨ N % 4 = 3 := by omega
    rcases h4 with h | h | h | h <;> rw [h]
    · simp [rotate_90]
    · rw [Function.iterate_one]
      rfl
    · rw [rot2_eq_double image hh hw]
      simp [Function.iterate_succ_apply', p4_def]
    · rw [rot3_eq_triple image hh hw]
      simp [Function.iterate_succ_apply', p4_def]
  have hiter : process_4^[N] image = process_4^[N % 4] image := by
    conv_lhs => rw [← Nat.div_add_mod N 4]
    rw [Nat.add_comm (4 * (N / 4)) (N % 4), Function.iterate_add_apply,
      rot4_iterate_mul image hre hh hw (N / 4)]
  refine ⟨?_, ?_, ?_⟩
  · rw [hmod, hcase, hiter]
  · rw [hmod, hcase]
  · intro h0
    rw [hmod, h0]
    simp [rotate_90]

/-- Witness for `rotateN_eq_iterated_rot90` at a concrete 2×2 image, N = 5. -/
theorem rotateN_eq_iterated_rot90_witness :
    Rect [[⟨1, 2, 3⟩, ⟨4, 5, 6⟩], [⟨7, 8, 9⟩, ⟨10, 11, 12⟩]] ∧
      0 < nrows [[⟨1, 2, 3⟩, ⟨4, 5, 6⟩], [⟨7, 8, 9⟩, ⟨10, 11, 12⟩]] ∧
      0 < ncols [[⟨1, 2, 3⟩, ⟨4, 5, 6⟩], [⟨7, 8, 9⟩, ⟨10, 11, 12⟩]] ∧ 1 ≤ 5 ∧
      (rotate_90 [[⟨1, 2, 3⟩, ⟨4, 5, 6⟩], [⟨7, 8, 9⟩, ⟨10, 11, 12⟩]] 5
          = process_4^[5] [[⟨1, 2, 3⟩, ⟨4, 5, 6⟩], [⟨7, 8, 9⟩, ⟨10, 11, 12⟩]] ∧
        rotate_90 [[⟨1, 2, 3⟩, ⟨4, 5, 6⟩], [⟨7, 8, 9⟩, ⟨10, 11, 12⟩]] 5
          = process_4^[5 % 4] [[⟨1, 2, 3⟩, ⟨4, 5, 6⟩], [⟨7, 8, 9⟩, ⟨10, 11, 12⟩]] ∧
        (5 % 4 = 0 → rotate_90 [[⟨1, 2, 3⟩, ⟨4, 5, 6⟩], [⟨7, 8, 9⟩, ⟨10, 11, 12⟩]] 5
          = [[⟨1, 2, 3⟩, ⟨4, 5, 6⟩], [⟨7, 8, 9⟩, ⟨10, 11, 12⟩]])) :=
  ⟨by decide, by decide, by decide, by decide,
    rotateN_eq_iterated_rot90 _ (by decide) (by decide) (by decide) 5 (by decide)⟩

/-! ## Byte reader lemmas -/

theorem bytesVal_out (d : List Int) (n : Nat) : ∀ (p : Nat), d.length ≤ p →
    bytesVal d p n = negSum n := by
  induction n with
  | zero => intro p h; rfl
  | succ n ih =>
    intro p h
    rw [bytesVal, negSum, getD_out _ _ _ h, ih (p + 1) (by omega)]

theorem get_int_loop_failed (n : Nat) : ∀ (acc base : Int) (s : ByteStream),
    s.failed = true → get_int_loop n acc base s = (acc + base * negSum n, s) := by
  induction n with
  | zero =>
    intro acc base s hs
    simp [get_int_loop, negSum]
  | succ n ih =>
    intro acc base s hs
    have hget : s.get = (-1, s) := by simp [ByteStream.get, hs]
    rw [get_int_loop, hget]
    rw [ih _ _ _ hs]
    rw [negSum]
    ring_nf

theorem get_int_loop_val (n : Nat) : ∀ (acc base : Int) (d : List Int) (p : Nat),
    (get_int_loop n acc base ⟨d, p, false⟩).1 = acc + base * bytesVal d p n := by
  induction n with
  | zero =>
    intro acc base d p
    simp [get_int_loop, bytesVal]
  | succ n ih =>
    intro acc base d p
    by_cases hp : p < d.length
    · have hget : (ByteStream.mk d p false).get = (d.getD p (-1), ⟨d, p + 1, false⟩) := by
        simp [ByteStream.get, hp]
      rw [get_int_loop, hget]
      rw [ih]
      rw [bytesVal]
      ring_nf
    · have hget : (ByteStream.mk d p false).get = (-1, ⟨d, p, true⟩) := by
        simp [ByteStream.get, hp]
      rw [get_int_loop, hget]
      rw [get_int_loop_failed n _ _ _ rfl]
      rw [bytesVal, getD_out _ _ _ (le_of_not_lt hp),
        bytesVal_out d n (p + 1) (by omega)]
      ring_nf

theorem seekg_nonneg (d : List Int) (p₀ : Nat) (off : Int) (hoff : 0 ≤ off) :
    (ByteStream.mk d p₀ false).seekg off = ⟨d, off.toNat, false⟩ := by
  simp [ByteStream.seekg, not_lt.mpr hoff]

theorem get_int_val (d : List Int) (p₀ : Nat) (off : Int) (n : Nat) (hoff : 0 ≤ off) :
    (get_int ⟨d, p₀, false⟩ off n).1 = bytesVal d off.toNat n := by
  unfold get_int
  rw [seekg_nonneg _ _ _ hoff, get_int_loop_val]
  ring

/-- Claim C3 counterexample: reading one byte at offset 0 from an empty
stream.  The claim says bytes past the end contribute zero, so the result
should be 0; `get_int` returns the EOF sentinel sum -1. -/
theorem get_int_eof_cex :
    (get_int ⟨[], 0, false⟩ 0 1).1 = -1 ∧ (get_int ⟨[], 0, false⟩ 0 1).1 ≠ 0 := by
  decide

/-- Claim C3 (amended): for every byte sequence, non-negative offset and
byte count in 1..4, `get_int` returns the little-endian sum in which
position offset+i contributes `data[offset+i] * 256^i` when in bounds and
`(-1) * 256^i` (the `istream::get` EOF sentinel, not zero) when past the
end of the sequence; that is exactly `bytesVal`. -/
theorem get_int_le_eof_sentinel (data : List Int) (offset : Int) (bytes : Nat)
    (h0 : 0 ≤ offset) (h1 : 1 ≤ bytes) (h4 : bytes ≤ 4) :
    (get_int ⟨data, 0, false⟩ offset bytes).1 = bytesVal data offset.toNat bytes :=
  get_int_val data 0 offset bytes h0

/-- Witness for `get_int_le_eof_sentinel`: a 2-byte stream read with a
4-byte count; the two missing bytes contribute -65536 and -16777216. -/
theorem get_int_le_eof_sentinel_witness :
    (0 : Int) ≤ 0 ∧ 1 ≤ 4 ∧ 4 ≤ 4 ∧
      ((get_int ⟨[1, 2], 0, false⟩ 0 4).1 = bytesVal [1, 2] (0 : Int).toNat 4 ∧
        bytesVal [1, 2] (0 : Int).toNat 4 = -16842239) :=
  ⟨by decide, by decide, by decide,
    get_int_le_eof_sentinel [1, 2] 0 4 (by decide) (by decide) (by decide), by decide⟩

/-! ## Decoder rejection and row shape -/

theorem read_image_invalid (data : List Int)
    (h : (read_header data).file_size ≠ (read_header data).start
        + ((read_header data).width * Int.tdiv (read_header data).bits_per_pixel 8
            + padOf ((read_header data).width * Int.tdiv (read_header data).bits_per_pixel 8))
          * (read_header data).height) :
    read_image data = [] := by
  simp only [read_image]
  rw [if_pos h]

theorem read_image_valid (data : List Int)
    (h : (read_header data).file_size = (read_header data).start
        + ((read_header data).width * Int.tdiv (read_header data).bits_per_pixel 8
            + padOf ((read_header data).width * Int.tdiv (read_header data).bits_per_pixel 8))
          * (read_header data).height) :
    read_image data = ((readRows (read_header data).height.toNat (read_header data).after
      (read_header data).start (Int.tdiv (read_header data).bits_per_pixel 8)
      (padOf ((read_header data).width * Int.tdiv (read_header data).bits_per_pixel 8))
      (read_header data).width.toNat).1).reverse := by
  simp only [read_image]
  rw [if_neg (by simpa using h)]

theorem readRow_len (w : Nat) : ∀ (s : ByteStream) (pos pb : Int),
    (readRow w s pos pb).1.length = w := by
  induction w with
  | zero => intro s pos pb; rfl
  | succ w ih =>
    intro s pos pb
    simp [readRow, ih]

theorem readRows_rowlen (n : Nat) : ∀ (s : ByteStream) (pos pb pad : Int) (w : Nat),
    ∀ r ∈ (readRows n s pos pb pad w).1, r.length = w := by
  induction n with
  | zero =>
    intro s pos pb pad w r hr
    simp [readRows] at hr
  | succ n ih =>
    intro s pos pb pad w r hr
    simp only [readRows] at hr
    rcases List.mem_cons.mp hr with rfl | hr2
    · exact readRow_len w _ _ _
    · exact ih _ _ _ _ _ r hr2

/-- Claim C4: when the header fields read by `read_image` violate
file_size = offset + (scanline_size + padding) * height, with
scanline_size = width * (bits_per_pixel / 8) and padding rounding it up
to a multiple of 4, decoding returns the empty image; the model is a
total function, so no exception can escape, and the pixel loop is never
entered. -/
theorem decoder_rejects_bad_file_size (data : List Int)
    (h : (read_header data).file_size ≠ (read_header data).start
        + ((read_header data).width * Int.tdiv (read_header data).bits_per_pixel 8
            + padOf ((read_header data).width * Int.tdiv (read_header data).bits_per_pixel 8))
          * (read_header data).height) :
    read_image data = [] :=
  read_image_invalid data h

/-- Witness for `decoder_rejects_bad_file_size`: a 30-byte stream whose
header declares file_size=100, offset=54, width=1, height=1, bpp=24, so
the required size is 54 + 4*1 = 58 and the decoder rejects. -/
theorem decoder_rejects_bad_file_size_witness :
    ((read_header [0, 0, 100, 0, 0, 0, 0, 0, 0, 0, 54, 0, 0, 0, 0, 0, 0, 0,
          1, 0, 0, 0, 1, 0, 0, 0, 0, 0, 24, 0]).file_size
        ≠ (read_header [0, 0, 100, 0, 0, 0, 0, 0, 0, 0, 54, 0, 0, 0, 0, 0, 0, 0,
          1, 0, 0, 0, 1, 0, 0, 0, 0, 0, 24, 0]).start
        + ((read_header [0, 0, 100, 0, 0, 0, 0, 0, 0, 0, 54, 0, 0, 0, 0, 0, 0, 0,
            1, 0, 0, 0, 1, 0, 0, 0, 0, 0, 24, 0]).width
            * Int.tdiv (read_header [0, 0, 100, 0, 0, 0, 0, 0, 0, 0, 54, 0, 0, 0, 0, 0, 0, 0,
              1, 0, 0, 0, 1, 0, 0, 0, 0, 0, 24, 0]).bits_per_pixel 8
          + padOf ((read_header [0, 0, 100, 0, 0, 0, 0, 0, 0, 0, 54, 0, 0, 0, 0, 0, 0, 0,
              1, 0, 0, 0, 1, 0, 0, 0, 0, 0, 24, 0]).width
            * Int.tdiv (read_header [0, 0, 100, 0, 0, 0, 0, 0, 0, 0, 54, 0, 0, 0, 0, 0, 0, 0,
              1, 0, 0, 0, 1, 0, 0, 0, 0, 0, 24, 0]).bits_per_pixel 8))
          * (read_header [0, 0, 100, 0, 0, 0, 0, 0, 0, 0, 54, 0, 0, 0, 0, 0, 0, 0,
            1, 0, 0, 0, 1, 0, 0, 0, 0, 0, 24, 0]).height) ∧
      read_image [0, 0, 100, 0, 0, 0, 0, 0, 0, 0, 54, 0, 0, 0, 0, 0, 0, 0,
        1, 0, 0, 0, 1, 0, 0, 0, 0, 0, 24, 0] = [] :=
  ⟨by decide, decoder_rejects_bad_file_size _ (by decide)⟩

/-- Claim C9 counterexample: the 30-byte stream with header fields
file_size=54, offset=54, width=0, height=1, bpp=24 satisfies the validity
equation (54 = 54 + 0), so `read_image` returns the non-empty image
consisting of one empty row: a successful decode does not guarantee
width ≥ 1. -/
theorem decode_width_zero_cex :
    read_image [0, 0, 54, 0, 0, 0, 0, 0, 0, 0, 54, 0, 0, 0, 0, 0, 0, 0,
        0, 0, 0, 0, 1, 0, 0, 0, 0, 0, 24, 0] ≠ [] ∧
      ((read_image [0, 0, 54, 0, 0, 0, 0, 0, 0, 0, 54, 0, 0, 0, 0, 0, 0, 0,
        0, 0, 0, 0, 1, 0, 0, 0, 0, 0, 24, 0]).getD 0 []).length = 0 := by
  decide

/-- Claim C9 (amended): if `read_image` returns a non-empty result, then
the image has at least one row (height ≥ 1) and every row has exactly the
declared width — but that width may be 0, so "width ≥ 1" does not hold in
general. -/
theorem decode_nonempty_height (data : List Int) (h : read_image data ≠ []) :
    1 ≤ (read_image data).length ∧
      ∀ row ∈ read_image data, row.length = ((read_header data).width).toNat := by
  constructor
  · have h0 : 0 < (read_image data).length := List.length_pos.mpr h
    omega
  · intro row hrow
    by_cases hc : (read_header data).file_size = (read_header data).start
        + ((read_header data).width * Int.tdiv (read_header data).bits_per_pixel 8
            + padOf ((read_header data).width * Int.tdiv (read_header data).bits_per_pixel 8))
          * (read_header data).height
    · rw [read_image_valid data hc] at hrow
      exact readRows_rowlen _ _ _ _ _ _ row (List.mem_reverse.mp hrow)
    · exact absurd (read_image_invalid data hc) h

/-- Witness for `decode_nonempty_height` at the 2×2 file of the
specification scenario (a valid 70-byte stream). -/
theorem decode_nonempty_height_witness :
    read_image [66, 77, 70, 0, 0, 0, 0, 0, 0, 0, 54, 0, 0, 0, 40, 0, 0, 0,
        2, 0, 0, 0, 2, 0, 0, 0, 1, 0, 24, 0, 0, 0, 0, 0, 16, 0, 0, 0,
        19, 11, 0, 0, 19, 11, 0, 0, 0, 0, 0, 0, 0, 0, 0, 0,
        255, 0, 0, 255, 255, 255, 0, 0, 0, 0, 255, 0, 0, 0, 0, 0] ≠ [] ∧
      (1 ≤ (read_image [66, 77, 70, 0, 0, 0, 0, 0, 0, 0, 54, 0, 0, 0, 40, 0, 0, 0,
        2, 0, 0, 0, 2, 0, 0, 0, 1, 0, 24, 0, 0, 0, 0, 0, 16, 0, 0, 0,
        19, 11, 0, 0, 19, 11, 0, 0, 0, 0, 0, 0, 0, 0, 0, 0,
        255, 0, 0, 255, 255, 255, 0, 0, 0, 0, 255, 0, 0, 0, 0, 0]).length ∧
      ∀ row ∈ read_image [66, 77, 70, 0, 0, 0, 0, 0, 0, 0, 54, 0, 0, 0, 40, 0, 0, 0,
        2, 0, 0, 0, 2, 0, 0, 0, 1, 0, 24, 0, 0, 0, 0, 0, 16, 0, 0, 0,
        19, 11, 0, 0, 19, 11, 0, 0, 0, 0, 0, 0, 0, 0, 0, 0,
        255, 0, 0, 255, 255, 255, 0, 0, 0, 0, 255, 0, 0, 0, 0, 0],
        row.length = ((read_header [66, 77, 70, 0, 0, 0, 0, 0, 0, 0, 54, 0, 0, 0, 40, 0, 0, 0,
          2, 0, 0, 0, 2, 0, 0, 0, 1, 0, 24, 0, 0, 0, 0, 0, 16, 0, 0, 0,
          19, 11, 0, 0, 19, 11, 0, 0, 0, 0, 0, 0, 0, 0, 0, 0,
          255, 0, 0, 255, 255, 255, 0, 0, 0, 0, 255, 0, 0, 0, 0, 0]).width).toNat) :=
  ⟨by decide, decode_nonempty_height _ (by decide)⟩

/-! ## Per-pixel transform lemmas -/

theorem buildGrid_len (rows cols : Nat) (f : Nat → Nat → Pixel) :
    (buildGrid rows cols f).length = rows := by
  simp [buildGrid]

theorem buildGrid_rowlen (rows cols : Nat) (f : Nat → Nat → Pixel) (a : Nat) (ha : a < rows) :
    ((buildGrid rows cols f).getD a []).length = cols := by
  unfold buildGrid
  rw [List.getD_eq_getElem?_getD, List.getElem?_map, List.getElem?_range ha]
  simp

theorem getCell_buildGrid (rows cols : Nat) (f : Nat → Nat → Pixel) (a b : Nat)
    (ha : a < rows) (hb : b < cols) :
    getCell (buildGrid rows cols f) a b = f a b := by
  unfold getCell buildGrid
  have h1 : (List.map (fun row => List.map (fun col => f row col) (List.range cols))
      (List.range rows)).getD a [] = List.map (fun col => f a col) (List.range cols) := by
    rw [List.getD_eq_getElem?_getD, List.getElem?_map, List.getElem?_range ha]
    rfl
  rw [h1, List.getD_eq_getElem?_getD, List.getElem?_map, List.getElem?_range hb]
  rfl

theorem row_mem_of_lt (image : Image) (i : Nat) (hi : i < nrows image) :
    image.getD i [] ∈ image := by
  rw [getD_eq_get _ _ _ hi, List.get_eq_getElem]
  exact List.getElem_mem _

theorem cell_mem_row (image : Image) (i j : Nat) (hj : j < (image.getD i []).length) :
    getCell image i j ∈ image.getD i [] := by
  unfold getCell
  rw [getD_eq_get _ _ _ hj, List.get_eq_getElem]
  exact List.getElem_mem _

theorem tdiv_eq_fdiv_nonneg (a b : Int) (h : 0 ≤ a) (hb : 0 ≤ b) :
    Int.tdiv a b = Int.fdiv a b := by
  rw [Int.tdiv_eq_ediv h hb, Int.fdiv_eq_ediv _ hb]

/-- Claim C7: on a non-empty rectangular image with channels in [0,255],
the grayscale transform preserves dimensions and makes every output pixel
gray with common value the floor of the mean of the input channels
(integer division of the channel sum by 3). -/
theorem grayscale_spec (image : Image) (hre : Rect image) (hh : 0 < nrows image)
    (hw : 0 < ncols image) (hch : ∀ row ∈ image, ∀ p ∈ row, chOK p) :
    (process_3 image).length = nrows image ∧
      (∀ i, i < nrows image → ((process_3 image).getD i []).length = ncols image) ∧
      ∀ i, i < nrows image → ∀ j, j < ncols image →
        (getCell (process_3 image) i j).red = (getCell (process_3 image) i j).green ∧
        (getCell (process_3 image) i j).green = (getCell (process_3 image) i j).blue ∧
        (getCell (process_3 image) i j).red
          = Int.fdiv ((getCell image i j).red + (getCell image i j).green
              + (getCell image i j).blue) 3 := by
  refine ⟨buildGrid_len _ _ _, fun i hi => buildGrid_rowlen _ _ _ i hi, ?_⟩
  intro i hi j hj
  have hcell : chOK (getCell image i j) :=
    hch _ (row_mem_of_lt image i hi) _
      (cell_mem_row image i j (by rw [hre i hi]; exact hj))
  have e1 : (size_image image).1 = nrows image := rfl
  have e2 : (size_image image).2 = ncols image := rfl
  rw [process_3, e1, e2, getCell_buildGrid _ _ _ i j hi hj]
  simp only [rbg_pixel, new_pixel]
  rcases hcell with ⟨hr0, hr1, hg0, hg1, hb0, hb1⟩
  refine ⟨trivial, trivial, ?_⟩
  rw [tdiv_eq_fdiv_nonneg _ _ (by omega) (by omega)]
  congr 1
  ring

/-- Witness for `grayscale_spec` at a concrete 1×1 image. -/
theorem grayscale_spec_witness :
    Rect [[⟨10, 20, 31⟩]] ∧ 0 < nrows [[⟨10, 20, 31⟩]] ∧ 0 < ncols [[⟨10, 20, 31⟩]] ∧
      (∀ row ∈ [[⟨10, 20, 31⟩]], ∀ p ∈ row, chOK p) ∧
      ((process_3 [[⟨10, 20, 31⟩]]).length = nrows [[⟨10, 20, 31⟩]] ∧
        (∀ i, i < nrows [[⟨10, 20, 31⟩]] →
          ((process_3 [[⟨10, 20, 31⟩]]).getD i []).length = ncols [[⟨10, 20, 31⟩]]) ∧
        ∀ i, i < nrows [[⟨10, 20, 31⟩]] → ∀ j, j < ncols [[⟨10, 20, 31⟩]] →
          (getCell (process_3 [[⟨10, 20, 31⟩]]) i j).red
              = (getCell (process_3 [[⟨10, 20, 31⟩]]) i j).green ∧
            (getCell (process_3 [[⟨10, 20, 31⟩]]) i j).green
              = (getCell (process_3 [[⟨10, 20, 31⟩]]) i j).blue ∧
            (getCell (process_3 [[⟨10, 20, 31⟩]]) i j).red
              = Int.fdiv ((getCell [[⟨10, 20, 31⟩]] i j).red
                  + (getCell [[⟨10, 20, 31⟩]] i j).green
                  + (getCell [[⟨10, 20, 31⟩]] i j).blue) 3) :=
  ⟨by decide, by decide, by decide, by decide,
    grayscale_spec _ (by decide) (by decide) (by decide) (by decide)⟩

/-- Claim C8: on a non-empty rectangular image, the color threshold
transform preserves dimensions and maps each pixel p as follows: channel
sum at least 550 gives white; otherwise sum at most 150 gives black;
otherwise pure red, green or blue according to the maximum channel, ties
resolved red first, then green, else blue. -/
theorem color_threshold_spec (image : Image) (hre : Rect image) (hh : 0 < nrows image)
    (hw : 0 < ncols image) :
    (process_10 image).length = nrows image ∧
      (∀ i, i < nrows image → ((process_10 image).getD i []).length = ncols image) ∧
      ∀ i, i < nrows image → ∀ j, j < ncols image → ∀ p : Pixel, p = getCell image i j →
        ((550 ≤ p.red + p.green + p.blue →
            getCell (process_10 image) i j = ⟨255, 255, 255⟩) ∧
          (p.red + p.green + p.blue < 550 → p.red + p.green + p.blue ≤ 150 →
            getCell (process_10 image) i j = ⟨0, 0, 0⟩) ∧
          (150 < p.red + p.green + p.blue → p.red + p.green + p.blue < 550 →
            p.green ≤ p.red → p.blue ≤ p.red →
            getCell (process_10 image) i j = ⟨255, 0, 0⟩) ∧
          (150 < p.red + p.green + p.blue → p.red + p.green + p.blue < 550 →
            p.red < p.green → p.blue ≤ p.green →
            getCell (process_10 image) i j = ⟨0, 255, 0⟩) ∧
          (150 < p.red + p.green + p.blue → p.red + p.green + p.blue < 550 →
            p.red < p.blue → p.green < p.blue →
            getCell (process_10 image) i j = ⟨0, 0, 255⟩)) := by
  refine ⟨buildGrid_len _ _ _, fun i hi => buildGrid_rowlen _ _ _ i hi, ?_⟩
  intro i hi j hj p hp
  have e1 : (size_image image).1 = nrows image := rfl
  have e2 : (size_image image).2 = ncols image := rfl
  rw [process_10, e1, e2, getCell_buildGrid _ _ _ i j hi hj]
  simp only [rbg_pixel]
  rw [← hp]
  refine ⟨?_, ?_, ?_, ?_, ?_⟩
  · intro h550
    rw [if_pos (by omega : (550 : Int) ≤ p.red + p.blue + p.green)]
    rfl
  · intro h1 h2
    rw [if_neg (by omega), if_pos (by omega : p.red + p.blue + p.green ≤ 150)]
    rfl
  · intro hs1 hs2 hgr hbr
    have hmx : max (max p.red p.blue) p.green = p.red := by
      rw [max_eq_left hbr, max_eq_left hgr]
    rw [if_neg (by omega), if_neg (by omega), if_pos hmx]
    rfl
  · intro hs1 hs2 hrg hbg
    have hmx : max (max p.red p.blue) p.green = p.green :=
      max_eq_right (max_le (le_of_lt hrg) hbg)
    rw [if_neg (by omega), if_neg (by omega), if_neg (by rw [hmx]; omega), if_pos hmx]
    rfl
  · intro hs1 hs2 hrb hgb
    have hmx : max (max p.red p.blue) p.green = p.blue := by
      rw [max_eq_right (le_of_lt hrb), max_eq_left (le_of_lt hgb)]
    rw [if_neg (by omega), if_neg (by omega), if_neg (by rw [hmx]; omega),
      if_neg (by rw [hmx]; omega)]
    rfl

/-- Witness for `color_threshold_spec` at a concrete 1×1 image whose pixel
has the green channel maximal (sum 400, output pure green). -/
theorem color_threshold_spec_witness :
    Rect [[⟨100, 200, 100⟩]] ∧ 0 < nrows [[⟨100, 200, 100⟩]] ∧
      0 < ncols [[⟨100, 200, 100⟩]] ∧
      ((process_10 [[⟨100, 200, 100⟩]]).length = nrows [[⟨100, 200, 100⟩]] ∧
        (∀ i, i < nrows [[⟨100, 200, 100⟩]] →
          ((process_10 [[⟨100, 200, 100⟩]]).getD i []).length = ncols [[⟨100, 200, 100⟩]]) ∧
        ∀ i, i < nrows [[⟨100, 200, 100⟩]] → ∀ j, j < ncols [[⟨100, 200, 100⟩]] →
          ∀ p : Pixel, p = getCell [[⟨100, 200, 100⟩]] i j →
          ((550 ≤ p.red + p.green + p.blue →
              getCell (process_10 [[⟨100, 200, 100⟩]]) i j = ⟨255, 255, 255⟩) ∧
            (p.red + p.green + p.blue < 550 → p.red + p.green + p.blue ≤ 150 →
              getCell (process_10 [[⟨100, 200, 100⟩]]) i j = ⟨0, 0, 0⟩) ∧
            (150 < p.red + p.green + p.blue → p.red + p.green + p.blue < 550 →
              p.green ≤ p.red → p.blue ≤ p.red →
              getCell (process_10 [[⟨100, 200, 100⟩]]) i j = ⟨255, 0, 0⟩) ∧
            (150 < p.red + p.green + p.blue → p.red + p.green + p.blue < 550 →
              p.red < p.green → p.blue ≤ p.green →
              getCell (process_10 [[⟨100, 200, 100⟩]]) i j = ⟨0, 255, 0⟩) ∧
            (150 < p.red + p.green + p.blue → p.red + p.green + p.blue < 550 →
              p.red < p.blue → p.green < p.blue →
              getCell (process_10 [[⟨100, 200, 100⟩]]) i j = ⟨0, 0, 255⟩))) :=
  ⟨by decide, by decide, by decide,
    color_threshold_spec _ (by decide) (by decide) (by decide)⟩

/-! ## Encoder byte layout -/

theorem rect_mem (image : Image) (hre : Rect image) :
    ∀ row ∈ image, row.length = ncols image := by
  intro row hrow
  rcases List.mem_iff_get.mp hrow with ⟨⟨k, hk⟩, rfl⟩
  have h2 := hre k hk
  rw [getD_eq_get _ _ _ hk] at h2
  exact h2

theorem length_set_bytes (n : Nat) (v : Int) : (set_bytes n v).length = n := by
  unfold set_bytes
  rw [List.length_map, List.length_range]

theorem length_headerAll (w h ab : Nat) : (headerAll w h ab).length = 54 := by
  simp [headerAll, bmp_header, dib_header, length_set_bytes]

theorem length_flatMap_enc_pixel (row : List Pixel) :
    (row.flatMap enc_pixel).length = 3 * row.length := by
  induction row with
  | nil => rfl
  | cons p ps ih =>
    rw [List.flatMap_cons, List.length_append, ih, List.length_cons]
    simp [enc_pixel]
    ring

theorem length_enc_row (padding_bytes : Nat) (row : List Pixel) :
    (enc_row padding_bytes row).length = 3 * row.length + padding_bytes := by
  unfold enc_row
  rw [List.length_append, length_flatMap_enc_pixel, List.length_replicate]

theorem write_image_eq (image : Image) :
    write_image image
      = headerAll (ncols image) (nrows image) (strideOf (ncols image) * nrows image)
        ++ pixel_array image ((4 - (ncols image * 3) % 4) % 4) := by
  simp [write_image, headerAll, strideOf, List.append_assoc]

theorem flatMap_getElem_uniform {α : Type} (f : α → List Int) (L : Nat) (rs : List α) :
    ∀ (hL : ∀ r ∈ rs, (f r).length = L) (k : Nat) (hk : k < rs.length) (m : Nat),
      m < L → (rs.flatMap f)[k * L + m]? = (f (rs.get ⟨k, hk⟩))[m]? := by
  induction rs with
  | nil =>
    intro hL k hk
    exact absurd hk (by simp)
  | cons r rs ih =>
    intro hL k hk m hm
    rw [List.flatMap_cons]
    cases k with
    | zero =>
      have hfr : (f r).length = L := hL r (List.mem_cons_self _ _)
      rw [List.getElem?_append_left (by rw [hfr]; omega)]
      have e0 : 0 * L + m = m := by omega
      rw [e0]
      rfl
    | succ k =>
      have hfr : (f r).length = L := hL r (List.mem_cons_self _ _)
      have hmul : (k + 1) * L = k * L + L := by ring
      rw [List.getElem?_append_right (by rw [hfr]; omega)]
      have e : (k + 1) * L + m - (f r).length = k * L + m := by rw [hfr]; omega
      rw [e, ih (fun x hx => hL x (List.mem_cons_of_mem _ hx)) k (by simpa using hk) m hm]
      rfl

theorem reverse_row (image : Image) (i : Nat) (hi : i < image.length) :
    image.reverse[image.length - 1 - i]? = some (image.getD i []) := by
  rw [List.getElem?_reverse (by omega)]
  have e : image.length - 1 - (image.length - 1 - i) = i := by omega
  rw [e, List.getElem?_eq_getElem hi, getD_eq_get _ _ _ hi, List.get_eq_getElem]

theorem write_image_byte (image : Image) (hre : Rect image) (hh : 0 < nrows image)
    (i j c : Nat) (hi : i < nrows image) (hj : j < ncols image) (hc : c < 3) :
    (write_image image)[54 + (nrows image - 1 - i) * strideOf (ncols image) + (3 * j + c)]?
      = (enc_pixel (getCell image i j))[c]? := by
  have hrow : ∀ r ∈ image.reverse,
      (enc_row ((4 - (ncols image * 3) % 4) % 4) r).length = strideOf (ncols image) := by
    intro r hr
    rw [length_enc_row, rect_mem image hre r (List.mem_reverse.mp hr), strideOf]
    omega
  have hm : 3 * j + c < strideOf (ncols image) := by
    unfold strideOf
    omega
  rw [write_image_eq]
  rw [List.getElem?_append_right (by rw [length_headerAll]; omega)]
  have e1 : 54 + (nrows image - 1 - i) * strideOf (ncols image) + (3 * j + c)
      - (headerAll (ncols image) (nrows image)
          (strideOf (ncols image) * nrows image)).length
      = (nrows image - 1 - i) * strideOf (ncols image) + (3 * j + c) := by
    rw [length_headerAll]
    omega
  rw [e1]
  unfold pixel_array
  have hk : nrows image - 1 - i < image.reverse.length := by
    rw [List.length_reverse]
    show nrows image - 1 - i < nrows image
    omega
  rw [flatMap_getElem_uniform _ (strideOf (ncols image)) image.reverse hrow
    (nrows image - 1 - i) hk (3 * j + c) hm]
  have hR : image.reverse.get ⟨nrows image - 1 - i, hk⟩ = image.getD i [] := by
    have h0 := reverse_row image i hi
    have h1 : image.reverse[nrows image - 1 - i]?
        = some (image.reverse.get ⟨nrows image - 1 - i, hk⟩) := by
      rw [List.get_eq_getElem, List.getElem?_eq_getElem hk]
    exact Option.some.inj (h1.symm.trans h0)
  rw [hR]
  unfold enc_row
  have hRlen : (image.getD i []).length = ncols image := hre i hi
  rw [List.getElem?_append_left (by rw [length_flatMap_enc_pixel, hRlen]; omega)]
  have e2 : 3 * j + c = j * 3 + c := by ring
  rw [e2, flatMap_getElem_uniform enc_pixel 3 (image.getD i []) (fun r hrr => rfl) j
    (by rw [hRlen]; exact hj) c hc]
  congr 2
  unfold getCell
  exact (getD_eq_get (image.getD i []) j zeroPixel (by rw [hRlen]; exact hj)).symm

/-- Claim C10: for every non-empty rectangular image handed to
`write_image` and every pixel (i, j), the three bytes emitted for that
pixel in the pixel array are exactly the blue, green and red channel
values reduced mod 256 (the narrowing conversion to `unsigned char`):
out-of-range channels wrap around and are not clamped. -/
theorem encode_channel_wraps_mod256 (image : Image) (hre : Rect image)
    (hh : 0 < nrows image) (hw : 0 < ncols image) (i j : Nat)
    (hi : i < nrows image) (hj : j < ncols image) :
    (write_image image)[54 + (nrows image - 1 - i) * strideOf (ncols image) + 3 * j]?
        = some (Int.emod (getCell image i j).blue 256) ∧
      (write_image image)[54 + (nrows image - 1 - i) * strideOf (ncols image) + 3 * j + 1]?
        = some (Int.emod (getCell image i j).green 256) ∧
      (write_image image)[54 + (nrows image - 1 - i) * strideOf (ncols image) + 3 * j + 2]?
        = some (Int.emod (getCell image i j).red 256) := by
  refine ⟨?_, ?_, ?_⟩
  · have h0 := write_image_byte image hre hh i j 0 hi hj (by omega)
    simpa [enc_pixel] using h0
  · have h0 := write_image_byte image hre hh i j 1 hi hj (by omega)
    have e : 54 + (nrows image - 1 - i) * strideOf (ncols image) + (3 * j + 1)
        = 54 + (nrows image - 1 - i) * strideOf (ncols image) + 3 * j + 1 := by omega
    rw [e] at h0
    simpa [enc_pixel] using h0
  · have h0 := write_image_byte image hre hh i j 2 hi hj (by omega)
    have e : 54 + (nrows image - 1 - i) * strideOf (ncols image) + (3 * j + 2)
        = 54 + (nrows image - 1 - i) * strideOf (ncols image) + 3 * j + 2 := by omega
    rw [e] at h0
    simpa [enc_pixel] using h0

/-- Witness for `encode_channel_wraps_mod256` at a 1×1 image whose pixel
channels are out of range: red 300 (emits 44), green -1 (emits 255),
blue 256 (emits 0). -/
theorem encode_channel_wraps_mod256_witness :
    Rect [[⟨300, -1, 256⟩]] ∧ 0 < nrows [[⟨300, -1, 256⟩]] ∧
      0 < ncols [[⟨300, -1, 256⟩]] ∧ 0 < nrows [[⟨300, -1, 256⟩]] ∧
      0 < ncols [[⟨300, -1, 256⟩]] ∧
      ((write_image [[⟨300, -1, 256⟩]])[54 + (nrows [[⟨300, -1, 256⟩]] - 1 - 0)
            * strideOf (ncols [[⟨300, -1, 256⟩]]) + 3 * 0]?
          = some (Int.emod (getCell [[⟨300, -1, 256⟩]] 0 0).blue 256) ∧
        (write_image [[⟨300, -1, 256⟩]])[54 + (nrows [[⟨300, -1, 256⟩]] - 1 - 0)
            * strideOf (ncols [[⟨300, -1, 256⟩]]) + 3 * 0 + 1]?
          = some (Int.emod (getCell [[⟨300, -1, 256⟩]] 0 0).green 256) ∧
        (write_image [[⟨300, -1, 256⟩]])[54 + (nrows [[⟨300, -1, 256⟩]] - 1 - 0)
            * strideOf (ncols [[⟨300, -1, 256⟩]]) + 3 * 0 + 2]?
          = some (Int.emod (getCell [[⟨300, -1, 256⟩]] 0 0).red 256)) :=
  ⟨by decide, by decide, by decide, by decide, by decide,
    encode_channel_wraps_mod256 _ (by decide) (by decide) (by decide) 0 0
      (by decide) (by decide)⟩

/-! ## Recovering header fields from set_bytes chunks -/

